import Mathlib

/-!
Shallow embedding of the viralautoclip extraction pipeline core
(subtitle chunking, JSON recovery from LLM output, timeline
validation/clamping, retry backoff, outline merging and final
timeline assembly), translated from the Python sources under
`backend/`, together with theorems about the spec's claims.
-/

namespace ViralAutoClip

/-! ## Character and string helpers (modelling Python `str` operations) -/

/-- The `\x7b` character (opening curly brace). -/
def lcurly : Char := Char.ofNat 123

/-- The `\x7d` character (closing curly brace). -/
def rcurly : Char := Char.ofNat 125

/-- Python `str.strip` whitespace set (ASCII part, which is all the pipeline sees). -/
def isPyWs (c : Char) : Bool :=
  c = ' ' ∨ c = '\t' ∨ c = '\n' ∨ c = '\r' ∨ c = Char.ofNat 11 ∨ c = Char.ofNat 12

/-- Strip leading and trailing whitespace from a character list (Python `str.strip`). -/
def stripChars (cs : List Char) : List Char :=
  ((cs.dropWhile isPyWs).reverse.dropWhile isPyWs).reverse

/-- Python `str.strip` on strings. -/
def pyStrip (s : String) : String := String.mk (stripChars s.data)

/-- Python `str.replace(',', '.')` as used by `time_to_seconds` and
`_convert_time_format`. -/
def replaceCommaDot (s : String) : String :=
  String.mk (s.data.map (fun c => if c = ',' then '.' else c))

/-- Split a character list on a separator character (Python `str.split(sep)`). -/
def splitChar (sep : Char) : List Char → List (List Char)
  | [] => [[]]
  | c :: cs =>
    let r := splitChar sep cs
    if c = sep then [] :: r
    else
      match r with
      | [] => [[c]]
      | g :: gs => (c :: g) :: gs

/-- Does `pat` occur as a contiguous substring of `cs`? (Python `in` on strings.) -/
def containsSub (pat : List Char) : List Char → Bool
  | [] => pat.isPrefixOf []
  | c :: cs => pat.isPrefixOf (c :: cs) || containsSub pat cs

/-- Python `str.lower` (ASCII part). -/
def lowerStr (s : String) : String := String.mk (s.data.map Char.toLower)

/-- Parse a nonempty all-digit character list as a natural number
(the fragment of Python `int()` exercised by SRT timestamps). -/
def parseNatDigits (cs : List Char) : Option Nat :=
  if cs = [] then none
  else if cs.all Char.isDigit then
    some (cs.foldl (fun acc c => acc * 10 + (c.toNat - 48)) 0)
  else none

/-- Parse `digits [ '.' digits ]` as a scaled pair `(n, k)` denoting
`n / 10^k` (the fragment of Python `float()` exercised by SRT second
fields), kept in integer form so that later comparisons kernel-evaluate. -/
def parseDecimalParts (cs : List Char) : Option (Nat × Nat) :=
  match splitChar '.' cs with
  | [intPart] =>
    (parseNatDigits intPart).map (fun n => (n, 0))
  | [intPart, fracPart] =>
    if intPart = [] ∧ fracPart = [] then none
    else
      let ip := if intPart = [] then some 0 else parseNatDigits intPart
      let fp := if fracPart = [] then some 0 else parseNatDigits fracPart
      match ip, fp with
      | some i, some f => some (i * 10 ^ fracPart.length + f, fracPart.length)
      | _, _ => none
  | _ => none

/-! ## `TextProcessor.time_to_seconds`

Python: replace `,` with `.`, split on `:`, require three parts,
return `int(h)*3600 + int(m)*60 + float(s_full)`; raises otherwise
(modelled as `none`).  The value is built as one exact rational
`mkRat` so that it evaluates inside the kernel. -/

/-- `TextProcessor.time_to_seconds`, `none` standing for the raised `ValueError`. -/
def time_to_seconds (timeStr : String) : Option ℚ :=
  match splitChar ':' (replaceCommaDot timeStr).data with
  | [h, m, sFull] =>
    match parseNatDigits h, parseNatDigits m, parseDecimalParts sFull with
    | some h', some m', some (n, k) =>
      some (mkRat ((h' * 3600 + m' * 60) * 10 ^ k + n : Nat) (10 ^ k))
    | _, _, _ => none
  | _ => none

/-- Exact subtraction of rationals written with `mkRat` (equal to `a - b`,
see `ratSub_eq`); the built-in `Rat.sub` is irreducible and would block
kernel evaluation of the chunker on concrete inputs. -/
def ratSub (a b : ℚ) : ℚ := mkRat (a.num * b.den - b.num * a.den) (a.den * b.den)

/-! ## Subtitle entries and `TextProcessor.chunk_srt_data` -/

/-- One parsed SRT entry, as produced by `TextProcessor.parse_srt`
(a dict with `start_time`, `end_time`, `text`, `index`). -/
structure SrtEntry where
  index : Nat
  start_time : String
  end_time : String
  text : String
  deriving Repr, DecidableEq

/-- One chunk payload, as produced by `TextProcessor._create_chunk_payload`. -/
structure Chunk where
  chunk_index : Nat
  text : String
  start_time : String
  end_time : String
  srt_entries : List SrtEntry
  deriving Repr, DecidableEq

/-- `TextProcessor._create_chunk_payload`. -/
def create_chunk_payload (index : Nat) (entries : List SrtEntry) : Chunk :=
  { chunk_index := index
    text := String.intercalate " " (entries.map (·.text))
    start_time := ((entries.head?).map (·.start_time)).getD ""
    end_time := ((entries.getLast?).map (·.end_time)).getD ""
    srt_entries := entries }

/-- The loop body of `TextProcessor.chunk_srt_data`: state is the emitted
chunks, the running entry list, its accumulated text length, the next chunk
index and the last cut time.  `none` models a `ValueError` escaping from
`time_to_seconds` on a malformed entry timestamp. -/
def chunkLoop (intervalSeconds : ℚ) (maxChars : Nat) :
    List SrtEntry → List Chunk → List SrtEntry → Nat → Nat → ℚ → Option (List Chunk)
  | [], chunks, currentEntries, _, chunkIndex, _ =>
    if currentEntries.isEmpty then some chunks
    else some (chunks ++ [create_chunk_payload chunkIndex currentEntries])
  | entry :: rest, chunks, currentEntries, currentTextLen, chunkIndex, lastCutTime =>
    match time_to_seconds entry.start_time with
    | none => none
    | some entryStart =>
      let timeLimitReached := intervalSeconds ≤ ratSub entryStart lastCutTime
      let charLimitReached := maxChars ≤ currentTextLen + entry.text.length
      if (timeLimitReached ∨ charLimitReached) ∧ ¬ currentEntries.isEmpty then
        chunkLoop intervalSeconds maxChars rest
          (chunks ++ [create_chunk_payload chunkIndex currentEntries])
          [entry] entry.text.length (chunkIndex + 1) entryStart
      else
        chunkLoop intervalSeconds maxChars rest chunks
          (currentEntries ++ [entry]) (currentTextLen + entry.text.length)
          chunkIndex lastCutTime

/-- `TextProcessor.chunk_srt_data`.  `none` models an uncaught exception
(malformed timestamp); the empty input short-circuits to `[]`. -/
def chunk_srt_data (srtData : List SrtEntry) (intervalMinutes : Nat) (maxChars : Nat) :
    Option (List Chunk) :=
  match srtData with
  | [] => some []
  | first :: _ =>
    match time_to_seconds first.start_time with
    | none => none
    | some firstStart =>
      chunkLoop ((intervalMinutes * 60 : Nat) : ℚ) maxChars srtData [] [] 0 0 firstStart

/-- Sum of the entry text lengths of a list of entries (the quantity tracked
by the chunker's `current_text_len` accumulator). -/
def sumTextLen (entries : List SrtEntry) : Nat :=
  (entries.map (fun e => e.text.length)).sum

/-! ## JSON values (the result type of Python `json.loads`) -/

/-- A parsed JSON value.  `num` uses exact rationals; the numbers the
pipeline sees are small integers and millisecond decimals, on which the
rational order agrees with Python float order. -/
inductive Json where
  | null
  | bool (b : Bool)
  | num (q : ℚ)
  | str (s : String)
  | arr (elems : List Json)
  | obj (fields : List (String × Json))
  deriving Repr

/-- The backquote character. -/
def backquote : Char := Char.ofNat 96

/-- The single-quote character. -/
def squote : Char := Char.ofNat 39

/-- The double-quote character. -/
def dquote : Char := Char.ofNat 34

/-- JSON whitespace accepted by Python `json.loads` between tokens. -/
def isJsonWs (c : Char) : Bool :=
  c = ' ' ∨ c = '\t' ∨ c = '\n' ∨ c = '\r'

/-- Drop JSON whitespace. -/
def skipWsJ (cs : List Char) : List Char := cs.dropWhile isJsonWs

/-- Value of a hexadecimal digit. -/
def hexVal (c : Char) : Option Nat :=
  if c.isDigit then some (c.toNat - 48)
  else if 'a' ≤ c ∧ c ≤ 'f' then some (c.toNat - 87)
  else if 'A' ≤ c ∧ c ≤ 'F' then some (c.toNat - 55)
  else none

/-- Single-character JSON escapes. -/
def escChar (c : Char) : Option Char :=
  if c = dquote then some dquote
  else if c = '\\' then some '\\'
  else if c = '/' then some '/'
  else if c = 'b' then some (Char.ofNat 8)
  else if c = 'f' then some (Char.ofNat 12)
  else if c = 'n' then some '\n'
  else if c = 'r' then some '\r'
  else if c = 't' then some '\t'
  else none

/-- Parse a JSON string body (after the opening quote) up to and including the
closing quote; returns the decoded characters and the remaining input.
Unescaped control characters are rejected, as in strict `json.loads`. -/
def parseJsonStringBody : List Char → Option (List Char × List Char)
  | [] => none
  | c :: rest =>
    if c = dquote then some ([], rest)
    else if c = '\\' then
      match rest with
      | [] => none
      | e :: rest2 =>
        if e = 'u' then
          match rest2 with
          | h1 :: h2 :: h3 :: h4 :: rest3 =>
            match hexVal h1, hexVal h2, hexVal h3, hexVal h4 with
            | some a, some b, some c3, some d =>
              (parseJsonStringBody rest3).map
                (fun p => (Char.ofNat (((a * 16 + b) * 16 + c3) * 16 + d) :: p.1, p.2))
            | _, _, _, _ => none
          | _ => none
        else
          match escChar e with
          | none => none
          | some ec => (parseJsonStringBody rest2).map (fun p => (ec :: p.1, p.2))
    else if c.toNat < 32 then none
    else (parseJsonStringBody rest).map (fun p => (c :: p.1, p.2))

/-- Take a maximal run of decimal digits. -/
def takeDigits (cs : List Char) : List Char × List Char :=
  (cs.takeWhile Char.isDigit, cs.dropWhile Char.isDigit)

/-- Parse the optional fraction of a JSON number: returns the fraction digits
value, their count, and the rest (`none` models a malformed fraction). -/
def parseJsonFrac (cs : List Char) : Option (Nat × Nat × List Char) :=
  match cs with
  | c :: rest =>
    if c = '.' then
      let (ds, rest2) := takeDigits rest
      if ds = [] then none
      else
        match parseNatDigits ds with
        | some f => some (f, ds.length, rest2)
        | none => none
    else some (0, 0, cs)
  | [] => some (0, 0, cs)

/-- Parse the optional exponent of a JSON number: returns its sign and value
and the rest. -/
def parseJsonExp (cs : List Char) : Option (Bool × Nat × List Char) :=
  match cs with
  | c :: rest =>
    if c = 'e' ∨ c = 'E' then
      let (negExp, rest2) :=
        match rest with
        | s :: r2 => if s = '+' then (false, r2) else if s = '-' then (true, r2) else (false, rest)
        | [] => (false, rest)
      let (eds, rest3) := takeDigits rest2
      if eds = [] then none
      else
        match parseNatDigits eds with
        | some e => some (negExp, e, rest3)
        | none => none
    else some (false, 0, cs)
  | [] => some (false, 0, cs)

/-- Parse a JSON number (sign, integer part without leading zeros, optional
fraction and exponent).  The value is assembled as a single `mkRat` from
integer arithmetic so that it kernel-evaluates. -/
def parseJsonNumber (cs : List Char) : Option (ℚ × List Char) :=
  let (neg, cs1) :=
    match cs with
    | c :: rest => if c = '-' then (true, rest) else (false, cs)
    | [] => (false, cs)
  match cs1 with
  | [] => none
  | d :: _ =>
    if ¬ d.isDigit then none
    else
      let (intDs, cs2) := takeDigits cs1
      if 1 < intDs.length ∧ intDs.head? = some '0' then none
      else
        match parseNatDigits intDs with
        | none => none
        | some i =>
          match parseJsonFrac cs2 with
          | none => none
          | some (f, k, cs3) =>
            match parseJsonExp cs3 with
            | none => none
            | some (negExp, e, rest) =>
              let mantissa : Nat := i * 10 ^ k + f
              let signedMant : Int := if neg then -(mantissa : Int) else (mantissa : Int)
              let q : ℚ :=
                if negExp then mkRat signedMant (10 ^ k * 10 ^ e)
                else mkRat (signedMant * 10 ^ e) (10 ^ k)
              some (q, rest)

/-- Replace-or-append assignment on an association list: Python dict item
assignment semantics (an existing key keeps its position, a new key is appended). -/
def setAssoc (k : String) (v : Json) : List (String × Json) → List (String × Json)
  | [] => [(k, v)]
  | (k0, v0) :: rest => if k0 = k then (k, v) :: rest else (k0, v0) :: setAssoc k v rest

/-- Association-list lookup (Python dict indexing, last-wins handled at insert). -/
def lookupAssoc (k : String) : List (String × Json) → Option Json
  | [] => none
  | (k0, v0) :: rest => if k0 = k then some v0 else lookupAssoc k rest

mutual

/-- Fueled recursive-descent JSON value parser mirroring Python `json.loads`. -/
def parseJsonValue : Nat → List Char → Option (Json × List Char)
  | 0, _ => none
  | fuel + 1, cs =>
    match skipWsJ cs with
    | [] => none
    | c :: rest =>
      if c = dquote then
        (parseJsonStringBody rest).map (fun p => (Json.str (String.mk p.1), p.2))
      else if c = '[' then parseJsonArrayItems fuel rest true []
      else if c = lcurly then parseJsonObjItems fuel rest true []
      else if c = 't' then
        if ['r', 'u', 'e'].isPrefixOf rest then some (Json.bool true, rest.drop 3) else none
      else if c = 'f' then
        if ['a', 'l', 's', 'e'].isPrefixOf rest then some (Json.bool false, rest.drop 4) else none
      else if c = 'n' then
        if ['u', 'l', 'l'].isPrefixOf rest then some (Json.null, rest.drop 3) else none
      else if c = '-' ∨ c.isDigit then
        (parseJsonNumber (c :: rest)).map (fun p => (Json.num p.1, p.2))
      else none

/-- Array items: a trailing comma makes the element parse fail, as in
`json.loads` (this is what `_fix_common_errors` later repairs). -/
def parseJsonArrayItems : Nat → List Char → Bool → List Json → Option (Json × List Char)
  | 0, _, _, _ => none
  | fuel + 1, cs, isFirst, acc =>
    match skipWsJ cs with
    | [] => none
    | c :: rest =>
      if isFirst ∧ c = ']' then some (Json.arr acc, rest)
      else
        match parseJsonValue fuel (c :: rest) with
        | none => none
        | some (v, r) =>
          match skipWsJ r with
          | d :: r2 =>
            if d = ',' then parseJsonArrayItems fuel r2 false (acc ++ [v])
            else if d = ']' then some (Json.arr (acc ++ [v]), r2)
            else none
          | [] => none

/-- Object members; duplicate keys follow dict last-wins semantics via `setAssoc`. -/
def parseJsonObjItems : Nat → List Char → Bool → List (String × Json) → Option (Json × List Char)
  | 0, _, _, _ => none
  | fuel + 1, cs, isFirst, acc =>
    match skipWsJ cs with
    | [] => none
    | c :: rest =>
      if isFirst ∧ c = rcurly then some (Json.obj acc, rest)
      else if c = dquote then
        match parseJsonStringBody rest with
        | none => none
        | some (keyChars, r1) =>
          match skipWsJ r1 with
          | d :: r2 =>
            if d = ':' then
              match parseJsonValue fuel r2 with
              | none => none
              | some (v, r3) =>
                let acc2 := setAssoc (String.mk keyChars) v acc
                match skipWsJ r3 with
                | e :: r4 =>
                  if e = ',' then parseJsonObjItems fuel r4 false acc2
                  else if e = rcurly then some (Json.obj acc2, r4)
                  else none
                | [] => none
            else none
          | [] => none
      else none

end

/-- Python `json.loads`: parse one value and require only whitespace after it.
`none` models the raised `JSONDecodeError`. -/
def json_loads (s : String) : Option Json :=
  match parseJsonValue (2 * s.length + 2) s.data with
  | none => none
  | some (v, rest) => if (skipWsJ rest).isEmpty then some v else none

/-! ## `LLMClient` JSON recovery (`parse_json_response` and helpers) -/

/-- Regex `\s` character class used by `_fix_common_errors`. -/
def isReWs (c : Char) : Bool :=
  c = ' ' ∨ c = '\t' ∨ c = '\n' ∨ c = '\r' ∨ c = Char.ofNat 11 ∨ c = Char.ofNat 12

/-- Characters opening the bracket-span regex `[\\[\{]` (note the class also
matches a literal backslash, faithfully to the source pattern). -/
def isSpanOpener (c : Char) : Bool := c = '\\' ∨ c = '[' ∨ c = lcurly

/-- Characters closing the bracket-span regex `[\}\]]`. -/
def isSpanCloser (c : Char) : Bool := c = ']' ∨ c = rcurly

/-- Remove a comma (plus following whitespace) that directly precedes a closing
bracket or brace: `re.sub(",\s*([\]\}])", "\1", s)`.  `pending` is a
not-yet-decided run consisting of a comma and subsequent whitespace. -/
def fixTrailingCommasGo (pending : List Char) : List Char → List Char
  | [] => pending
  | c :: rest =>
    if pending.isEmpty then
      if c = ',' then fixTrailingCommasGo [c] rest
      else c :: fixTrailingCommasGo [] rest
    else
      if isSpanCloser c then c :: fixTrailingCommasGo [] rest
      else if isReWs c then fixTrailingCommasGo (pending ++ [c]) rest
      else if c = ',' then pending ++ fixTrailingCommasGo [c] rest
      else pending ++ (c :: fixTrailingCommasGo [] rest)

/-- Scan `[^']*` content up to a closing single quote. -/
def takeUntilSquote : List Char → Option (List Char × List Char)
  | [] => none
  | c :: rest =>
    if c = squote then some ([], rest)
    else (takeUntilSquote rest).map (fun p => (c :: p.1, p.2))

/-- After a closing single quote, scan `\s*:`; returns the whitespace and the
input after the colon. -/
def wsColonSkip : List Char → Option (List Char × List Char)
  | [] => none
  | c :: rest =>
    if c = ':' then some ([], rest)
    else if isReWs c then (wsColonSkip rest).map (fun p => (c :: p.1, p.2))
    else none

/-- Convert single-quoted keys followed by a colon to double-quoted ones:
`re.sub("(\s*)'([^']*)'(\s*):", "\1\"\2\"\3:", s)` (fueled single pass). -/
def fixSingleQuoteKeysGo : Nat → List Char → List Char
  | 0, cs => cs
  | fuel + 1, cs =>
    match cs with
    | [] => []
    | c :: rest =>
      if c = squote then
        match takeUntilSquote rest with
        | none => c :: fixSingleQuoteKeysGo fuel rest
        | some (content, rest2) =>
          match wsColonSkip rest2 with
          | none => c :: fixSingleQuoteKeysGo fuel rest
          | some (ws, rest3) =>
            dquote :: content ++ dquote :: ws ++ ':' :: fixSingleQuoteKeysGo fuel rest3
      else c :: fixSingleQuoteKeysGo fuel rest

/-- `LLMClient._fix_common_errors`. -/
def fix_common_errors (s : String) : String :=
  let s1 := fixTrailingCommasGo [] s.data
  String.mk (fixSingleQuoteKeysGo (s1.length + 1) s1)

/-- `LLMClient._try_load_json`: `json.loads`, then the quick syntax fixes. -/
def try_load_json (s : String) : Option Json :=
  match json_loads s with
  | some v => some v
  | none => json_loads (fix_common_errors s)

/-- The triple-backquote code fence. -/
def fencePat : List Char := [backquote, backquote, backquote]

/-- Split at the first occurrence of `pat`, returning the parts before and after it. -/
def splitOnceOn (pat : List Char) : List Char → Option (List Char × List Char)
  | [] => if pat.isPrefixOf [] then some ([], []) else none
  | c :: rest =>
    if pat.isPrefixOf (c :: rest) then some ([], (c :: rest).drop pat.length)
    else (splitOnceOn pat rest).map (fun p => (c :: p.1, p.2))

/-- Strategy 1 of `parse_json_response`: the stripped interior of the first
markdown code fence pair, with an optional `json` language tag
(regex `fence(?:json)?\s*([\s\S]*?)\s*fence` with a lazy group). -/
def codeBlockCandidate (s : String) : Option String :=
  match splitOnceOn fencePat s.data with
  | none => none
  | some (_, afterOpen) =>
    let afterTag := if ['j', 's', 'o', 'n'].isPrefixOf afterOpen then afterOpen.drop 4 else afterOpen
    match splitOnceOn fencePat afterTag with
    | none => none
    | some (inner, _) => some (String.mk (stripChars inner))

/-- Strategy 2 of `parse_json_response`: the span from the first opener to the
last closer (regex `([\\[\{][\s\S]*[\}\]])`), stripped. -/
def bracketSpanCandidate (s : String) : Option String :=
  let fromOpen := s.data.dropWhile (fun c => ¬ isSpanOpener c)
  match fromOpen with
  | [] => none
  | _ :: _ =>
    let upToClose := (fromOpen.reverse.dropWhile (fun c => ¬ isSpanCloser c)).reverse
    match upToClose with
    | [] => none
    | [_] => none
    | _ => some (String.mk (stripChars upToClose))

/-- `LLMClient._aggressive_clean`: drop the BOM, strip, and remove ASCII
control characters other than newline, carriage return and tab. -/
def aggressive_clean (s : String) : String :=
  let s1 := pyStrip (String.mk (s.data.filter (fun c => c ≠ Char.ofNat 0xFEFF)))
  String.mk (s1.data.filter (fun c => 32 ≤ c.toNat ∨ c = '\n' ∨ c = '\r' ∨ c = '\t'))

/-- A Python value handed to `parse_json_response`: `None`, a `str`, or any
non-string object. -/
inductive PyVal where
  | pyNone
  | pyStr (s : String)
  | pyOther
  deriving Repr, DecidableEq

/-- Strategy 3 of `parse_json_response` and the final failure. -/
def parseJsonStage3 (s : String) : Except String Json :=
  match try_load_json (aggressive_clean s) with
  | some v => .ok v
  | none => .error "A resposta do modelo nao contem um JSON valido."

/-- Strategies 2 and 3 of `parse_json_response`. -/
def parseJsonStage2 (s : String) : Except String Json :=
  match bracketSpanCandidate s with
  | some cand =>
    match try_load_json cand with
    | some v => .ok v
    | none => parseJsonStage3 s
  | none => parseJsonStage3 s

/-- `LLMClient.parse_json_response`.  `Except.error` models the final raised
`ValueError`; falsy or non-string inputs return the empty list. -/
def parse_json_response (response : PyVal) : Except String Json :=
  match response with
  | .pyNone => .ok (.arr [])
  | .pyOther => .ok (.arr [])
  | .pyStr s =>
    if s = "" then .ok (.arr [])
    else
      match codeBlockCandidate s with
      | some cand =>
        match try_load_json cand with
        | some v => .ok v
        | none => parseJsonStage2 s
      | none => parseJsonStage2 s

/-- `LLMClient._validate_json_structure`: `None` is rejected, lists and dicts
are accepted, anything else is rejected. -/
def validate_json_structure (data : Json) : Bool :=
  match data with
  | .null => false
  | .arr _ => true
  | .obj _ => true
  | _ => false

/-! ## `TimelineExtractor` response validation and clamping -/

/-- `TimelineExtractor._validate_time_format`: regex
`^\d\d:\d\d:\d\d,\d\d\d$`. -/
def validate_time_format (s : String) : Bool :=
  match s.data with
  | [a, b, s1, c, d, s2, e, f, s3, g, h, i] =>
    a.isDigit && b.isDigit && s1 = ':' && c.isDigit && d.isDigit && s2 = ':' &&
    e.isDigit && f.isDigit && s3 = ',' && g.isDigit && h.isDigit && i.isDigit
  | _ => false

/-- `TimelineExtractor._convert_time_format`. -/
def convert_time_format (s : String) : String :=
  if s = "" ∨ s = "end" then s else replaceCommaDot s

/-- Python `in` on a JSON value (dict key test, list membership, substring
test); `none` models the `TypeError` raised on non-container values. -/
def pyContains (key : String) (j : Json) : Option Bool :=
  match j with
  | .obj fs => some (lookupAssoc key fs).isSome
  | .arr xs => some (xs.any (fun x => match x with | .str s => s = key | _ => false))
  | .str s => some (containsSub key.data s.data)
  | _ => none

/-- The `'outline' not in item or 'start_time' not in item or 'end_time' not
in item` guard, returning whether all keys are present (`none` = `TypeError`). -/
def keysPresent (item : Json) : Option Bool :=
  match pyContains "outline" item, pyContains "start_time" item, pyContains "end_time" item with
  | some a, some b, some c => some (a && b && c)
  | _, _, _ => none

/-- Python dict item assignment on a JSON value (no-op on non-dicts, whose
`TypeError` is handled separately by callers). -/
def setField (j : Json) (k : String) (v : Json) : Json :=
  match j with
  | .obj fs => .obj (setAssoc k v fs)
  | _ => j

/-- Python dict item read on a JSON value. -/
def getField (j : Json) (k : String) : Option Json :=
  match j with
  | .obj fs => lookupAssoc k fs
  | _ => none

/-- The per-item `try` block of `_parse_and_validate_response`: format checks,
time conversion, and the two one-sided clamps.  `none` models both the
`continue` after a failed format check and the inner `except ... continue`. -/
def tryValidateItem (item : Json) (chunkStart chunkEnd : String) : Option Json :=
  match getField item "start_time", getField item "end_time" with
  | some (.str st), some (.str et) =>
    if ¬ validate_time_format st then none
    else if ¬ validate_time_format et then none
    else
      match time_to_seconds (convert_time_format st), time_to_seconds (convert_time_format et),
            time_to_seconds chunkStart, time_to_seconds chunkEnd with
      | some startSec, some endSec, some chunkStartSec, some chunkEndSec =>
        let item1 :=
          if startSec < chunkStartSec then setField item "start_time" (.str chunkStart) else item
        let item2 :=
          if chunkEndSec < endSec then setField item1 "end_time" (.str chunkEnd) else item1
        some item2
      | _, _, _, _ => none
  | _, _ => none

/-- The validation loop over parsed items.  A `TypeError` outside the
per-item `try` (non-container membership test, item assignment on a
non-dict) propagates to the outer handler, modelled as `none`. -/
def validateLoop (chunkStart chunkEnd : String) (chunkIndex : Nat) :
    List Json → List Json → Option (List Json)
  | [], acc => some acc
  | item :: rest, acc =>
    match keysPresent item with
    | none => none
    | some false => validateLoop chunkStart chunkEnd chunkIndex rest acc
    | some true =>
      match item with
      | .obj fs =>
        let item1 := setField (.obj fs) "chunk_index" (.num chunkIndex)
        match tryValidateItem item1 chunkStart chunkEnd with
        | none => validateLoop chunkStart chunkEnd chunkIndex rest acc
        | some item2 => validateLoop chunkStart chunkEnd chunkIndex rest (acc ++ [item2])
      | _ => none

/-- `TimelineExtractor._parse_and_validate_response` (the debug-file side
writes are omitted from the model; they never affect the returned items). -/
def parse_and_validate_response (response : String) (chunkStart chunkEnd : String)
    (chunkIndex : Nat) : List Json :=
  match parse_json_response (.pyStr response) with
  | .error _ => []
  | .ok parsed =>
    if ¬ validate_json_structure parsed then []
    else
      match parsed with
      | .arr items =>
        match validateLoop chunkStart chunkEnd chunkIndex items [] with
        | none => []
        | some acc => acc
      | _ => []

/-! ## `LLMManager.call_with_retry` -/

/-- The rate-limit classification: the lowercased error text contains `429`
or `rate limit`. -/
def isRateLimitError (e : String) : Bool :=
  containsSub "429".data (lowerStr e).data || containsSub "rate limit".data (lowerStr e).data

/-- The wait computed for a failure on a given attempt number. -/
def retryWait (attempt : Nat) (e : String) : Nat :=
  if isRateLimitError e then (attempt + 1) * 20 else 2 ^ (attempt + 1)

/-- The `for attempt in range(total_retries)` loop of `call_with_retry`.
`outcomes n` is the result of the `n`-th provider call; the returned list
records every `time.sleep` duration in order. -/
def retryGo (totalRetries : Nat) (outcomes : Nat → Except String String) :
    Nat → Nat → List Nat → Except String String × List Nat
  | 0, _, waits => (.ok "", waits)
  | remaining + 1, attempt, waits =>
    match outcomes attempt with
    | .ok s => (.ok s, waits)
    | .error e =>
      if attempt = totalRetries - 1 then (.error e, waits)
      else retryGo totalRetries outcomes remaining (attempt + 1) (waits ++ [retryWait attempt e])

/-- `LLMManager.call_with_retry`: result (re-raised error or returned value)
together with the sequence of waits actually slept. -/
def call_with_retry (totalRetries : Nat) (outcomes : Nat → Except String String) :
    Except String String × List Nat :=
  retryGo totalRetries outcomes totalRetries 0 []

/-! ## `TextProcessor.parse_srt` and the outline extractor's use of it -/

/-- A subtitle as exposed by `pysrt` (times already rendered as strings). -/
structure PysrtSub where
  startTime : String
  endTime : String
  text : String
  index : Nat
  deriving Repr, DecidableEq

/-- The state of the SRT file handed to `parse_srt`. -/
structure SrtFileState where
  present : Bool
  size : Nat
  subs : List PysrtSub
  deriving Repr, DecidableEq

/-- `TextProcessor.parse_srt`.  The error channel exists only to state the
spec's `EmptySourceError` contract; the source never raises — a missing or
zero-size file logs and returns the empty list. -/
def parse_srt (f : SrtFileState) : Except String (List SrtEntry) :=
  if ¬ f.present ∨ f.size = 0 then .ok []
  else .ok (f.subs.map (fun s => ⟨s.index, s.startTime, s.endTime, pyStrip s.text⟩))

/-- One outline entry (`title`, `subtopics`, `chunk_index`). -/
structure Outline where
  title : String
  subtopics : List String
  chunk_index : Nat
  deriving Repr, DecidableEq

/-- The step-1 entry of `OutlineExtractor.extract_outline`: parse the SRT,
return `[]` on an empty parse or an exception, otherwise run the rest of the
pipeline (abstracted as `pipelineRest`). -/
def extract_outline_entry (f : SrtFileState)
    (pipelineRest : List SrtEntry → List Outline) : List Outline :=
  match parse_srt f with
  | .error _ => []
  | .ok srtData => if srtData.isEmpty then [] else pipelineRest srtData

/-! ## `OutlineExtractor._merge_outlines` -/

/-- The accumulator form of `_merge_outlines`' insertion-ordered dict:
keep the first occurrence of each title, preserving encounter order. -/
def mergeGo : List Outline → List Outline → List Outline
  | [], acc => acc
  | o :: rest, acc =>
    if acc.any (fun u => u.title = o.title) then mergeGo rest acc
    else mergeGo rest (acc ++ [o])

/-- `OutlineExtractor._merge_outlines`. -/
def merge_outlines (outlines : List Outline) : List Outline := mergeGo outlines []

/-! ## `TimelineExtractor.extract_timeline` final assembly (sort + IDs) -/

/-- The sort key `time_to_seconds(x['start_time'])`; `none` models the
exception on a missing or non-string field or an unparsable time. -/
def timelineSortKey (j : Json) : Option ℚ :=
  match getField j "start_time" with
  | some (.str s) => time_to_seconds s
  | _ => none

/-- Total version of the sort key, used only where every key is known to
parse (the code path where `list.sort` does not raise). -/
def timelineKeyD (j : Json) : ℚ := (timelineSortKey j).getD 0

/-- Stable insertion of one item after all items of smaller-or-equal key
(Python `list.sort` is stable; the stable sorted permutation is unique, so
any stable sort models it). -/
def insertStable (x : Json) : List Json → List Json
  | [] => [x]
  | y :: ys => if timelineKeyD y ≤ timelineKeyD x then y :: insertStable x ys else x :: y :: ys

/-- Stable sort by `timelineKeyD`, inserting items in encounter order. -/
def sortStable (l : List Json) : List Json := l.foldl (fun acc x => insertStable x acc) []

/-- The `item['id'] = str(i + 1)` enumeration over the sorted list. -/
def assignIds : List Json → Nat → List Json
  | [], _ => []
  | j :: rest, i => setField j "id" (.str (toString (i + 1))) :: assignIds rest (i + 1)

/-- The final-assembly phase of `TimelineExtractor.extract_timeline`: load all
per-chunk item lists, concatenate, and — when non-empty and every sort key
computes — sort by start seconds and assign sequential string IDs; a raised
key error leaves the concatenation unsorted and unnumbered. -/
def assemble_timeline (chunkFiles : List (List Json)) : List Json :=
  let allData := chunkFiles.flatten
  if allData.isEmpty then allData
  else if allData.all (fun j => (timelineSortKey j).isSome) then
    assignIds (sortStable allData) 0
  else allData

/-! ## `TimelineExtractor.extract_timeline` caching step (per chunk) -/

/-- Contents of one intermediate file. -/
inductive FileData where
  | txt (s : String)
  | jsonArr (items : List Json)
  deriving Repr

/-- Lookup in the modelled metadata directory. -/
def lookupFileData (k : String) : List (String × FileData) → Option FileData
  | [] => none
  | (k0, v) :: rest => if k0 = k then some v else lookupFileData k rest

/-- Write (create or overwrite) a file in the modelled metadata directory. -/
def writeFileData (k : String) (v : FileData) : List (String × FileData) → List (String × FileData)
  | [] => [(k, v)]
  | (k0, v0) :: rest => if k0 = k then (k, v) :: rest else (k0, v0) :: writeFileData k v rest

/-- The raw-response cache location probed before calling the provider:
`step2_llm_raw_output/chunk_<i>.txt`. -/
def llmCachePath (i : Nat) : String :=
  "step2_llm_raw_output/chunk_" ++ toString i ++ ".txt"

/-- The location the raw response is actually saved to:
`step2_llm_raw_output/chunk_<i>_attempt_<r>.txt`. -/
def attemptCachePath (i r : Nat) : String :=
  "step2_llm_raw_output/chunk_" ++ toString i ++ "_attempt_" ++ toString r ++ ".txt"

/-- The parsed-result file `step2_timeline_chunks/chunk_<i>.json`. -/
def timelineChunkPath (i : Nat) : String :=
  "step2_timeline_chunks/chunk_" ++ toString i ++ ".json"

/-- The `for retry_count in range(max_parse_retries + 1)` loop of
`extract_timeline`'s cache-miss branch.  `provider r` is the outcome of the
`r`-th orchestrated call (an exception lands in the inner handler and
consumes a retry).  Returns the updated file system and the number of
provider calls issued.  Debug-directory writes are omitted. -/
def parseRetryLoop (i : Nat) (chunkStart chunkEnd : String)
    (provider : Nat → Except String String) :
    List (String × FileData) → Nat → Nat → List (String × FileData) × Nat
  | fs, _, 0 => (fs, 0)
  | fs, r, remaining + 1 =>
    match provider r with
    | .error _ =>
      let next := parseRetryLoop i chunkStart chunkEnd provider fs (r + 1) remaining
      (next.1, next.2 + 1)
    | .ok raw =>
      if raw = "" then (fs, 1)
      else
        let fs1 := writeFileData (attemptCachePath i r) (.txt raw) fs
        let items := parse_and_validate_response raw chunkStart chunkEnd i
        if items.isEmpty then
          let next := parseRetryLoop i chunkStart chunkEnd provider fs1 (r + 1) remaining
          (next.1, next.2 + 1)
        else (writeFileData (timelineChunkPath i) (.jsonArr items) fs1, 1)

/-- One chunk-group iteration of `extract_timeline` (the caching skeleton):
skip when the SRT chunk is empty; read the cache and issue no call when
`llmCachePath` exists; otherwise run the call/parse retry loop
(`max_parse_retries = 2`, so up to 3 calls). -/
def timelineChunkStep (fs : List (String × FileData)) (chunkIndex : Nat)
    (srtChunkData : List SrtEntry) (provider : Nat → Except String String) :
    List (String × FileData) × Nat :=
  match srtChunkData with
  | [] => (fs, 0)
  | first :: _ =>
    let chunkStart := first.start_time
    let chunkEnd := ((srtChunkData.getLast?).map (·.end_time)).getD ""
    if (lookupFileData (llmCachePath chunkIndex) fs).isSome then (fs, 0)
    else parseRetryLoop chunkIndex chunkStart chunkEnd provider fs 0 3

/-! ## Derived measures used in claim statements -/

/-- Seconds of an item's `end_time` field. -/
def itemEndSec (j : Json) : Option ℚ :=
  match getField j "end_time" with
  | some (.str s) => time_to_seconds s
  | _ => none

/-- Boolean comparison of two optional second counts: true only when both
parse and the first is at most the second. -/
def optSecLe (a b : Option ℚ) : Bool :=
  match a, b with
  | some x, some y => decide (x ≤ y)
  | _, _ => false

/-- Is a JSON value a dict? -/
def isObjJ : Json → Bool
  | .obj _ => true
  | _ => false

/-- Strictly-ascending-by-start-seconds check on a timeline list. -/
def strictAscBool : List Json → Bool
  | [] => true
  | [_] => true
  | a :: b :: rest => decide (timelineKeyD a < timelineKeyD b) && strictAscBool (b :: rest)

/-! ## Concrete example inputs referenced by the claim theorems -/

/-- A two-entry subtitle stream. -/
def c1SrtExample : List SrtEntry :=
  [⟨1, "00:00:00,000", "00:00:01,000", "hello"⟩,
   ⟨2, "00:00:01,000", "00:00:02,000", "world"⟩]

/-- The single chunk produced from `c1SrtExample`. -/
def c1Chunk : Chunk :=
  ⟨0, "hello world", "00:00:00,000", "00:00:02,000", c1SrtExample⟩

/-- Four one-character entries inside one time window. -/
def c5SrtExample : List SrtEntry :=
  [⟨1, "00:00:00,000", "00:00:01,000", "a"⟩,
   ⟨2, "00:00:01,000", "00:00:02,000", "b"⟩,
   ⟨3, "00:00:02,000", "00:00:03,000", "c"⟩,
   ⟨4, "00:00:03,000", "00:00:04,000", "d"⟩]

/-- The single chunk produced from `c5SrtExample` with `max_chars = 5`. -/
def c5Chunk : Chunk :=
  ⟨0, "a b c d", "00:00:00,000", "00:00:04,000", c5SrtExample⟩

/-- A raw response whose item starts after the chunk end and ends before its
own start. -/
def c2BadResp : String :=
  "[\x7b\"outline\": \"t\", \"start_time\": \"00:35:00,000\", \"end_time\": \"00:10:00,000\"\x7d]"

/-- The item the validator emits from `c2BadResp` (unclamped). -/
def c2BadItem : Json :=
  .obj [("outline", .str "t"), ("start_time", .str "00:35:00,000"),
        ("end_time", .str "00:10:00,000"), ("chunk_index", .num 0)]

/-- The spec's clamping example: a raw item spanning 00:01:00–00:40:00. -/
def c2ClampResp : String :=
  "[\x7b\"outline\": \"t\", \"start_time\": \"00:01:00,000\", \"end_time\": \"00:40:00,000\"\x7d]"

/-- The item the validator emits from `c2ClampResp`: exactly the chunk bounds. -/
def c2ClampedItem : Json :=
  .obj [("outline", .str "t"), ("start_time", .str "00:05:00,000"),
        ("end_time", .str "00:30:00,000"), ("chunk_index", .num 0)]

/-- A missing zero-size SRT file. -/
def missingSrtFile : SrtFileState := ⟨false, 0, []⟩

/-- Outline entries with a duplicated title. -/
def c8OutlineA1 : Outline := ⟨"A", ["x"], 0⟩

/-- Second outline entry. -/
def c8OutlineB : Outline := ⟨"B", [], 0⟩

/-- A later duplicate of title `A` with different content. -/
def c8OutlineA2 : Outline := ⟨"A", ["y"], 1⟩

/-- A timeline item starting at second 1. -/
def c9ItemA : Json := .obj [("outline", .str "a"), ("start_time", .str "00:00:01,000")]

/-- A second timeline item with the same start time. -/
def c9ItemB : Json := .obj [("outline", .str "b"), ("start_time", .str "00:00:01,000")]

/-- A timeline item starting at second 0.5. -/
def c9ItemC : Json := .obj [("outline", .str "c"), ("start_time", .str "00:00:00,500")]

/-- A raw response with one valid in-range item, for the caching scenario. -/
def c6GoodResp : String :=
  "[\x7b\"outline\": \"t\", \"start_time\": \"00:10:00,000\", \"end_time\": \"00:20:00,000\"\x7d]"

/-- A one-entry SRT chunk spanning 00:05:00–00:30:00. -/
def c6SrtChunk : List SrtEntry := [⟨1, "00:05:00,000", "00:30:00,000", "hi"⟩]

/-- A provider that always answers `c6GoodResp`. -/
def c6Provider : Nat → Except String String := fun _ => .ok c6GoodResp

/-- Distinct-title relation on outlines (the merge invariant). -/
def TitleNe (u v : Outline) : Prop := u.title ≠ v.title

/-- Non-decreasing start-seconds relation on timeline items. -/
def KeyLe (a b : Json) : Prop := timelineKeyD a ≤ timelineKeyD b

/-! # Theorems -/

/-! ## Helper lemmas -/

/-- `ratSub` agrees with rational subtraction. -/
theorem ratSub_eq (a b : ℚ) : ratSub a b = a - b := by
  rw [ratSub, Rat.mkRat_eq_div]
  have ha : ((a.den : ℚ)) ≠ 0 := by exact_mod_cast a.den_nz
  have hb : ((b.den : ℚ)) ≠ 0 := by exact_mod_cast b.den_nz
  conv_rhs => rw [← Rat.num_div_den a, ← Rat.num_div_den b]
  rw [div_sub_div _ _ ha hb]
  push_cast
  ring_nf

@[simp] theorem create_chunk_payload_srt_entries (i : Nat) (es : List SrtEntry) :
    (create_chunk_payload i es).srt_entries = es := rfl

@[simp] theorem create_chunk_payload_chunk_index (i : Nat) (es : List SrtEntry) :
    (create_chunk_payload i es).chunk_index = i := rfl

theorem mergeGo_pairwise (l : List Outline) :
    ∀ acc : List Outline, acc.Pairwise TitleNe → (mergeGo l acc).Pairwise TitleNe := by
  induction l with
  | nil => intro acc hacc; simpa [mergeGo] using hacc
  | cons o rest ih =>
    intro acc hacc
    by_cases h : acc.any (fun u => u.title = o.title)
    · simpa [mergeGo, h] using ih acc hacc
    · have hne : ∀ a ∈ acc, a.title ≠ o.title := by
        intro a ha
        simp only [List.any_eq_true, decide_eq_true_eq] at h
        exact fun heq => h ⟨a, ha, heq⟩
      have : (acc ++ [o]).Pairwise TitleNe := by
        rw [List.pairwise_append]
        exact ⟨hacc, List.pairwise_singleton _ _, by
          intro a ha b hb
          simp only [List.mem_singleton] at hb
          subst hb
          exact hne a ha⟩
      simpa [mergeGo, h] using ih (acc ++ [o]) this

theorem mergeGo_of_pairwise (l : List Outline) :
    ∀ acc : List Outline, l.Pairwise TitleNe →
      (∀ a ∈ acc, ∀ b ∈ l, a.title ≠ b.title) → mergeGo l acc = acc ++ l := by
  induction l with
  | nil => intro acc _ _; simp [mergeGo]
  | cons o rest ih =>
    intro acc hl hcross
    have hany : acc.any (fun u => u.title = o.title) = false := by
      simp only [List.any_eq_false, decide_eq_true_eq]
      intro a ha
      exact hcross a ha o (by simp)
    have hl' : rest.Pairwise TitleNe := hl.tail
    have hcross' : ∀ a ∈ acc ++ [o], ∀ b ∈ rest, a.title ≠ b.title := by
      intro a ha b hb
      rcases List.mem_append.mp ha with ha' | ha'
      · exact hcross a ha' b (by simp [hb])
      · simp only [List.mem_singleton] at ha'
        subst ha'
        exact (List.pairwise_cons.mp hl).1 b hb
    have := ih (acc ++ [o]) hl' hcross'
    simp only [mergeGo, hany, Bool.false_eq_true, if_false]
    rw [this]
    simp

/-! ## Claim C8 -/

/-- Claim C8: outline merging deduplicates by title, first occurrence wins,
preserving encounter order — merging `[A₁, B, A₂]` keeps the first `A` and
`B` — and re-merging an already-merged list leaves it unchanged. -/
theorem merge_outlines_first_wins_idempotent :
    (∀ l : List Outline, merge_outlines (merge_outlines l) = merge_outlines l) ∧
    merge_outlines [c8OutlineA1, c8OutlineB, c8OutlineA2] = [c8OutlineA1, c8OutlineB] := by
  constructor
  · intro l
    have h1 : (merge_outlines l).Pairwise TitleNe :=
      mergeGo_pairwise l [] (by simp)
    have h2 := mergeGo_of_pairwise (merge_outlines l) [] h1 (by simp)
    simpa [merge_outlines] using h2
  · rfl

/-! ## Claim C3 -/

theorem retryGo_all_fail (outcomes : Nat → Except String String) (errs : Nat → String)
    (total : Nat) :
    ∀ (remaining attempt : Nat) (waits : List Nat),
      (∀ i, attempt ≤ i → i < total → outcomes i = .error (errs i)) →
      attempt + remaining = total → 0 < remaining →
      retryGo total outcomes remaining attempt waits =
        (.error (errs (total - 1)),
         waits ++ (List.range' attempt (remaining - 1)).map (fun n => retryWait n (errs n))) := by
  intro remaining
  induction remaining with
  | zero => intro attempt waits _ _ hpos; exact absurd hpos (by omega)
  | succ r ih =>
    intro attempt waits hfail htot _
    have herr : outcomes attempt = .error (errs attempt) :=
      hfail attempt (Nat.le_refl _) (by omega)
    rcases Nat.eq_zero_or_pos r with hr | hr
    · subst hr
      have hlast : attempt = total - 1 := by omega
      simp only [retryGo, herr]
      rw [if_pos hlast, hlast]
      simp [List.range']
    · have hnotlast : ¬ attempt = total - 1 := by omega
      have := ih (attempt + 1) (waits ++ [retryWait attempt (errs attempt)])
        (fun i h1 h2 => hfail i (by omega) h2) (by omega) hr
      simp only [retryGo, herr, hnotlast, if_false]
      rw [this]
      have hr' : r - 1 + 1 = r := by omega
      simp only [show r + 1 - 1 = r from rfl]
      rw [show (List.range' attempt r) = attempt :: List.range' (attempt + 1) (r - 1) by
        rw [← hr']; rfl]
      simp

theorem retryGo_fail_then_ok (outcomes : Nat → Except String String) (errs : Nat → String)
    (total k : Nat) (s : String) :
    ∀ (remaining attempt : Nat) (waits : List Nat),
      (∀ i, attempt ≤ i → i < k → outcomes i = .error (errs i)) →
      outcomes k = .ok s →
      attempt ≤ k → k < total → attempt + remaining = total →
      retryGo total outcomes remaining attempt waits =
        (.ok s, waits ++ (List.range' attempt (k - attempt)).map (fun n => retryWait n (errs n))) := by
  intro remaining
  induction remaining with
  | zero => intro attempt waits _ _ h1 h2 h3; omega
  | succ r ih =>
    intro attempt waits hfail hok hle hlt htot
    rcases Nat.eq_or_lt_of_le hle with heq | hlt2
    · subst heq
      simp [retryGo, hok]
    · have herr : outcomes attempt = .error (errs attempt) :=
        hfail attempt (Nat.le_refl _) hlt2
      have hnotlast : ¬ attempt = total - 1 := by omega
      have := ih (attempt + 1) (waits ++ [retryWait attempt (errs attempt)])
        (fun i h1 h2 => hfail i (by omega) h2) hok (by omega) hlt (by omega)
      simp only [retryGo, herr, hnotlast, if_false]
      rw [this]
      have hk : k - attempt = (k - (attempt + 1)) + 1 := by omega
      rw [hk, show (List.range' attempt (k - (attempt + 1) + 1)) =
        attempt :: List.range' (attempt + 1) (k - (attempt + 1)) from rfl]
      simp

/-- Claim C3 (amended): a failure on attempt `n` waits `(n+1)·20` seconds
when rate-limited and `2^(n+1)` seconds otherwise, but only on the
non-final attempts: the failure on the last attempt re-raises the original
error immediately, so `max_retries` failing attempts sleep only
`max_retries - 1` times. -/
theorem call_with_retry_backoff :
    (∀ (total : Nat) (outcomes : Nat → Except String String) (errs : Nat → String),
      0 < total →
      (∀ i, i < total → outcomes i = .error (errs i)) →
      call_with_retry total outcomes =
        (.error (errs (total - 1)),
         (List.range (total - 1)).map (fun n => retryWait n (errs n)))) ∧
    (∀ (total k : Nat) (outcomes : Nat → Except String String) (errs : Nat → String) (s : String),
      (∀ i, i < k → outcomes i = .error (errs i)) →
      outcomes k = .ok s → k < total →
      call_with_retry total outcomes =
        (.ok s, (List.range k).map (fun n => retryWait n (errs n)))) := by
  constructor
  · intro total outcomes errs hpos hfail
    have := retryGo_all_fail outcomes errs total total 0 []
      (fun i _ h2 => hfail i h2) (by omega) hpos
    simpa [call_with_retry, List.range_eq_range'] using this
  · intro total k outcomes errs s hfail hok hlt
    have := retryGo_fail_then_ok outcomes errs total k s total 0 []
      (fun i _ h2 => hfail i h2) hok (by omega) hlt (by omega)
    simpa [call_with_retry, List.range_eq_range'] using this

/-- Witness for `call_with_retry_backoff`: three rate-limited failures sleep
`[20, 40]` then re-raise; one failure then a success sleeps `[2]`. -/
theorem call_with_retry_backoff_witness :
    (call_with_retry 3 (fun _ => Except.error "429") =
      (Except.error "429", (List.range 2).map (fun n => retryWait n "429"))) ∧
    (call_with_retry 2 (fun n => if n = 0 then Except.error "boom" else Except.ok "done") =
      (Except.ok "done", (List.range 1).map (fun n => retryWait n "boom"))) := by
  constructor
  · exact call_with_retry_backoff.1 3 _ (fun _ => "429") (by decide) (fun i _ => rfl)
  · exact call_with_retry_backoff.2 2 1 _ (fun _ => "boom") "done"
      (fun i hi => by interval_cases i; rfl) rfl (by decide)

/-! ## Claim C4 -/

/-- Claim C4 (amended): a missing or zero-size subtitle file does not raise
any error: `parse_srt` returns the empty entry list, and the outline
extractor then returns the empty outline list in its place. -/
theorem parse_srt_empty_source (f : SrtFileState) (rest : List SrtEntry → List Outline)
    (h : f.present = false ∨ f.size = 0) :
    parse_srt f = .ok [] ∧ extract_outline_entry f rest = [] := by
  have hp : parse_srt f = .ok [] := by
    rcases h with h | h <;> simp [parse_srt, h]
  refine ⟨hp, ?_⟩
  simp [extract_outline_entry, hp]

/-- Witness for `parse_srt_empty_source` at the concrete missing file. -/
theorem parse_srt_empty_source_witness :
    parse_srt missingSrtFile = .ok [] ∧
    extract_outline_entry missingSrtFile (fun _ => [⟨"t", [], 0⟩]) = [] :=
  parse_srt_empty_source missingSrtFile (fun _ => [⟨"t", [], 0⟩]) (Or.inl rfl)

/-! ## Claim C1 -/

theorem chunkLoop_entries (intervalSeconds : ℚ) (maxChars : Nat) :
    ∀ (rest : List SrtEntry) (chunks : List Chunk) (current : List SrtEntry)
      (len idx : Nat) (last : ℚ) (out : List Chunk),
      chunkLoop intervalSeconds maxChars rest chunks current len idx last = some out →
      (out.map Chunk.srt_entries).flatten =
        (chunks.map Chunk.srt_entries).flatten ++ current ++ rest := by
  intro rest
  induction rest with
  | nil =>
    intro chunks current len idx last out h
    simp only [chunkLoop] at h
    split at h
    · next hemp =>
      obtain rfl : chunks = out := Option.some.inj h
      simp [List.isEmpty_iff.mp hemp]
    · next hemp =>
      obtain rfl : chunks ++ [create_chunk_payload idx current] = out := Option.some.inj h
      simp
  | cons entry rest ih =>
    intro chunks current len idx last out h
    simp only [chunkLoop] at h
    split at h
    · exact absurd h (by simp)
    · next entryStart hts =>
      split at h
      · have := ih (chunks ++ [create_chunk_payload idx current]) [entry]
          entry.text.length (idx + 1) entryStart out h
        simp only [List.map_append, List.flatten_append] at this
        simp only [this]
        simp
      · have := ih chunks (current ++ [entry]) (len + entry.text.length) idx last out h
        simp only [this]
        simp

theorem chunkLoop_indexes (intervalSeconds : ℚ) (maxChars : Nat) :
    ∀ (rest : List SrtEntry) (chunks : List Chunk) (current : List SrtEntry)
      (len idx : Nat) (last : ℚ) (out : List Chunk),
      chunkLoop intervalSeconds maxChars rest chunks current len idx last = some out →
      chunks.map Chunk.chunk_index = List.range chunks.length →
      idx = chunks.length →
      out.map Chunk.chunk_index = List.range out.length := by
  intro rest
  induction rest with
  | nil =>
    intro chunks current len idx last out h hidx hlen
    simp only [chunkLoop] at h
    split at h
    · obtain rfl : chunks = out := Option.some.inj h
      exact hidx
    · obtain rfl : chunks ++ [create_chunk_payload idx current] = out := Option.some.inj h
      subst hlen
      simp [hidx, List.range_succ]
  | cons entry rest ih =>
    intro chunks current len idx last out h hidx hlen
    simp only [chunkLoop] at h
    split at h
    · exact absurd h (by simp)
    · next entryStart hts =>
      split at h
      · refine ih (chunks ++ [create_chunk_payload idx current]) [entry]
          entry.text.length (idx + 1) entryStart out h ?_ ?_
        · subst hlen; simp [hidx, List.range_succ]
        · simp [hlen]
      · exact ih chunks (current ++ [entry]) (len + entry.text.length) idx last out h hidx hlen

/-- Claim C1: chunking is a strict partition — concatenating the
`srt_entries` of the produced chunks in order reproduces the input entry
list exactly, and the `chunk_index` fields are `0, 1, 2, …` contiguously. -/
theorem chunk_srt_data_partition (srtData : List SrtEntry) (im mc : Nat)
    (out : List Chunk) (h : chunk_srt_data srtData im mc = some out) :
    (out.map Chunk.srt_entries).flatten = srtData ∧
    out.map Chunk.chunk_index = List.range out.length := by
  match srtData with
  | [] =>
    obtain rfl : ([] : List Chunk) = out := Option.some.inj (by simpa [chunk_srt_data] using h)
    simp
  | first :: rest =>
    simp only [chunk_srt_data] at h
    split at h
    · exact absurd h (by simp)
    · next firstStart hts =>
      constructor
      · simpa using chunkLoop_entries _ _ (first :: rest) [] [] 0 0 firstStart out h
      · exact chunkLoop_indexes _ _ (first :: rest) [] [] 0 0 firstStart out h (by simp) (by simp)

/-- Witness for `chunk_srt_data_partition` on a concrete two-entry stream. -/
theorem chunk_srt_data_partition_witness :
    (([c1Chunk].map Chunk.srt_entries).flatten = c1SrtExample) ∧
    [c1Chunk].map Chunk.chunk_index = List.range ([c1Chunk].length) :=
  chunk_srt_data_partition c1SrtExample 10 100 [c1Chunk] (by rfl)

/-! ## Claim C5 -/

theorem chunkLoop_budget (intervalSeconds : ℚ) (maxChars : Nat) :
    ∀ (rest : List SrtEntry) (chunks : List Chunk) (current : List SrtEntry)
      (len idx : Nat) (last : ℚ) (out : List Chunk),
      chunkLoop intervalSeconds maxChars rest chunks current len idx last = some out →
      len = sumTextLen current →
      (2 ≤ current.length → sumTextLen current < maxChars) →
      (∀ c ∈ chunks, 2 ≤ c.srt_entries.length → sumTextLen c.srt_entries < maxChars) →
      ∀ c ∈ out, 2 ≤ c.srt_entries.length → sumTextLen c.srt_entries < maxChars := by
  intro rest
  induction rest with
  | nil =>
    intro chunks current len idx last out h _ hcur hchunks
    simp only [chunkLoop] at h
    split at h
    · obtain rfl : chunks = out := Option.some.inj h
      exact hchunks
    · obtain rfl : chunks ++ [create_chunk_payload idx current] = out := Option.some.inj h
      intro c hc
      rcases List.mem_append.mp hc with hc' | hc'
      · exact hchunks c hc'
      · simp only [List.mem_singleton] at hc'
        subst hc'
        simpa using hcur
  | cons entry rest ih =>
    intro chunks current len idx last out h hlen hcur hchunks
    simp only [chunkLoop] at h
    split at h
    · exact absurd h (by simp)
    · next entryStart hts =>
      split at h
      · next hcond =>
        refine ih (chunks ++ [create_chunk_payload idx current]) [entry]
          entry.text.length (idx + 1) entryStart out h ?_ ?_ ?_
        · simp [sumTextLen]
        · intro h2; simp at h2
        · intro c hc
          rcases List.mem_append.mp hc with hc' | hc'
          · exact hchunks c hc'
          · simp only [List.mem_singleton] at hc'
            subst hc'
            simpa using hcur
      · next hcond =>
        refine ih chunks (current ++ [entry]) (len + entry.text.length) idx last out h ?_ ?_ hchunks
        · simp [sumTextLen, hlen]
        · intro h2
          cases current with
          | nil => simp at h2
          | cons y ys =>
            have hne : ¬ (List.isEmpty (y :: ys) = true) := by simp
            have hnochar : ¬ (maxChars ≤ len + entry.text.length) := fun hchar =>
              hcond ⟨Or.inr hchar, hne⟩
            have hsum : sumTextLen ((y :: ys) ++ [entry]) =
                sumTextLen (y :: ys) + entry.text.length := by
              simp [sumTextLen, Nat.add_assoc]
            omega

/-- Claim C5 (amended): the chunker's character budget bounds the sum of the
entry text lengths — any chunk holding at least two entries has total entry
text strictly below `max_chars` (a boundary is cut as soon as adding the next
entry would reach either limit, so only a single-entry chunk can reach or
exceed the budget); the space-joined `text` field itself can exceed
`max_chars` by its separator characters. -/
theorem chunk_srt_data_char_budget (srtData : List SrtEntry) (im mc : Nat)
    (out : List Chunk) (h : chunk_srt_data srtData im mc = some out) :
    ∀ c ∈ out, 2 ≤ c.srt_entries.length → sumTextLen c.srt_entries < mc := by
  match srtData with
  | [] =>
    obtain rfl : ([] : List Chunk) = out := Option.some.inj (by simpa [chunk_srt_data] using h)
    simp
  | first :: rest =>
    simp only [chunk_srt_data] at h
    split at h
    · exact absurd h (by simp)
    · next firstStart hts =>
      exact chunkLoop_budget _ _ (first :: rest) [] [] 0 0 firstStart out h (by simp [sumTextLen])
        (by intro h2; simp at h2) (by simp)

/-- Witness for `chunk_srt_data_char_budget`: with budget 5 the four
one-character entries form one chunk of total entry text 4 < 5. -/
theorem chunk_srt_data_char_budget_witness :
    2 ≤ c5Chunk.srt_entries.length ∧ sumTextLen c5Chunk.srt_entries < 5 :=
  ⟨by decide, chunk_srt_data_char_budget c5SrtExample 10 5 [c5Chunk] (by rfl) c5Chunk
    (by simp) (by decide)⟩

/-! ## Claim C2 -/

@[simp] theorem getField_obj (fs : List (String × Json)) (k : String) :
    getField (.obj fs) k = lookupAssoc k fs := rfl

@[simp] theorem setField_obj (fs : List (String × Json)) (k : String) (v : Json) :
    setField (.obj fs) k v = .obj (setAssoc k v fs) := rfl

theorem lookupAssoc_setAssoc_self (k : String) (v : Json) :
    ∀ fs, lookupAssoc k (setAssoc k v fs) = some v := by
  intro fs
  induction fs with
  | nil => simp [setAssoc, lookupAssoc]
  | cons kv rest ih =>
    obtain ⟨k0, v0⟩ := kv
    by_cases hk : k0 = k
    · subst hk
      simp [setAssoc, lookupAssoc]
    · simp [setAssoc, hk, lookupAssoc, ih]

theorem lookupAssoc_setAssoc_ne (k k' : String) (hne : k ≠ k') (v : Json) :
    ∀ fs, lookupAssoc k' (setAssoc k v fs) = lookupAssoc k' fs := by
  intro fs
  induction fs with
  | nil => simp [setAssoc, lookupAssoc, hne]
  | cons kv rest ih =>
    obtain ⟨k0, v0⟩ := kv
    by_cases hk : k0 = k
    · subst hk
      simp [setAssoc, lookupAssoc, hne]
    · by_cases hk' : k0 = k'
      · subst hk'
        simp [setAssoc, hk, lookupAssoc]
      · simp [setAssoc, hk, lookupAssoc, hk', ih]

theorem getField_setField_self (fs : List (String × Json)) (k : String) (v : Json) :
    getField (setField (.obj fs) k v) k = some v := by
  simp [setField, getField, lookupAssoc_setAssoc_self]

theorem getField_setField_ne (j : Json) (k k' : String) (hne : k ≠ k') (v : Json) :
    getField (setField j k v) k' = getField j k' := by
  cases j with
  | obj fs =>
    simp only [setField, getField]
    exact lookupAssoc_setAssoc_ne k k' hne v fs
  | null => rfl
  | bool b => rfl
  | num q => rfl
  | str s => rfl
  | arr xs => rfl

theorem replaceCommaDot_idem (s : String) :
    replaceCommaDot (replaceCommaDot s) = replaceCommaDot s := by
  simp only [replaceCommaDot, List.map_map]
  congr 1
  apply List.map_congr_left
  intro c _
  by_cases hc : c = ',' <;> simp [hc, Function.comp]

theorem time_to_seconds_replaceCommaDot (s : String) :
    time_to_seconds (replaceCommaDot s) = time_to_seconds s := by
  unfold time_to_seconds
  rw [replaceCommaDot_idem]

theorem time_to_seconds_convert (s : String) :
    time_to_seconds (convert_time_format s) = time_to_seconds s := by
  unfold convert_time_format
  split
  · rfl
  · exact time_to_seconds_replaceCommaDot s

theorem tryValidateItem_bounds (fs : List (String × Json)) (cs ce : String) (item2 : Json)
    (h : tryValidateItem (.obj fs) cs ce = some item2) :
    optSecLe (time_to_seconds cs) (timelineSortKey item2) = true ∧
    optSecLe (itemEndSec item2) (time_to_seconds ce) = true := by
  unfold tryValidateItem at h
  split at h
  case _ st et hst het =>
    split at h
    · exact absurd h (by simp)
    · split at h
      · exact absurd h (by simp)
      · split at h
        case _ startSec endSec chunkStartSec chunkEndSec hts1 hts2 hts3 hts4 =>
          have hst' : time_to_seconds st = some startSec := by
            rw [← time_to_seconds_convert st]; exact hts1
          have het' : time_to_seconds et = some endSec := by
            rw [← time_to_seconds_convert et]; exact hts2
          have hstfs : lookupAssoc "start_time" fs = some (Json.str st) := hst
          have hetfs : lookupAssoc "end_time" fs = some (Json.str et) := het
          by_cases h1 : startSec < chunkStartSec <;> by_cases h2 : chunkEndSec < endSec <;>
            simp only [h1, h2, if_true, if_false] at h <;>
            obtain rfl := Option.some.inj h
          · -- both clamped
            constructor
            · have hkey : timelineSortKey (setField
                  (setField (Json.obj fs) "start_time" (Json.str cs)) "end_time" (Json.str ce)) =
                  time_to_seconds cs := by
                simp only [setField_obj, timelineSortKey, getField_obj]
                rw [lookupAssoc_setAssoc_ne "end_time" "start_time" (by decide) (Json.str ce) _,
                  lookupAssoc_setAssoc_self]
              rw [hkey, hts3]
              simp [optSecLe]
            · have hkey : itemEndSec (setField
                  (setField (Json.obj fs) "start_time" (Json.str cs)) "end_time" (Json.str ce)) =
                  time_to_seconds ce := by
                simp only [setField_obj, itemEndSec, getField_obj]
                rw [lookupAssoc_setAssoc_self]
              rw [hkey, hts4]
              simp [optSecLe]
          · -- start clamped only
            constructor
            · have hkey : timelineSortKey (setField (Json.obj fs) "start_time" (Json.str cs)) =
                  time_to_seconds cs := by
                simp only [setField_obj, timelineSortKey, getField_obj]
                rw [lookupAssoc_setAssoc_self]
              rw [hkey, hts3]
              simp [optSecLe]
            · have hkey : itemEndSec (setField (Json.obj fs) "start_time" (Json.str cs)) =
                  time_to_seconds et := by
                simp only [setField_obj, itemEndSec, getField_obj]
                rw [lookupAssoc_setAssoc_ne "start_time" "end_time" (by decide) (Json.str cs) _,
                  hetfs]
              rw [hkey, het', hts4]
              simp [optSecLe, le_of_not_lt h2]
          · -- end clamped only
            constructor
            · have hkey : timelineSortKey (setField (Json.obj fs) "end_time" (Json.str ce)) =
                  time_to_seconds st := by
                simp only [setField_obj, timelineSortKey, getField_obj]
                rw [lookupAssoc_setAssoc_ne "end_time" "start_time" (by decide) (Json.str ce) _,
                  hstfs]
              rw [hkey, hst', hts3]
              simp [optSecLe, le_of_not_lt h1]
            · have hkey : itemEndSec (setField (Json.obj fs) "end_time" (Json.str ce)) =
                  time_to_seconds ce := by
                simp only [setField_obj, itemEndSec, getField_obj]
                rw [lookupAssoc_setAssoc_self]
              rw [hkey, hts4]
              simp [optSecLe]
          · -- neither clamped
            constructor
            · have hkey : timelineSortKey (Json.obj fs) = time_to_seconds st := by
                simp only [timelineSortKey, getField_obj]
                rw [hstfs]
              rw [hkey, hst', hts3]
              simp [optSecLe, le_of_not_lt h1]
            · have hkey : itemEndSec (Json.obj fs) = time_to_seconds et := by
                simp only [itemEndSec, getField_obj]
                rw [hetfs]
              rw [hkey, het', hts4]
              simp [optSecLe, le_of_not_lt h2]
        · exact absurd h (by simp)
  case _ =>
    exact absurd h (by simp)

theorem validateLoop_bounds (cs ce : String) (ci : Nat) :
    ∀ (items acc out : List Json),
      validateLoop cs ce ci items acc = some out →
      (∀ j ∈ acc,
        optSecLe (time_to_seconds cs) (timelineSortKey j) = true ∧
        optSecLe (itemEndSec j) (time_to_seconds ce) = true) →
      ∀ j ∈ out,
        optSecLe (time_to_seconds cs) (timelineSortKey j) = true ∧
        optSecLe (itemEndSec j) (time_to_seconds ce) = true := by
  intro items
  induction items with
  | nil =>
    intro acc out h hacc
    obtain rfl : acc = out := Option.some.inj (by simpa [validateLoop] using h)
    exact hacc
  | cons item rest ih =>
    intro acc out h hacc
    simp only [validateLoop] at h
    cases hkp : keysPresent item with
    | none => simp [hkp] at h
    | some b =>
      cases b with
      | false =>
        simp only [hkp] at h
        exact ih acc out h hacc
      | true =>
        simp only [hkp] at h
        cases item with
        | obj fs =>
          cases hval : tryValidateItem (setField (.obj fs) "chunk_index" (.num ci)) cs ce with
          | none =>
            simp only [hval] at h
            exact ih acc out h hacc
          | some item2 =>
            simp only [hval] at h
            refine ih (acc ++ [item2]) out h ?_
            intro j hj
            rcases List.mem_append.mp hj with hj' | hj'
            · exact hacc j hj'
            · simp only [List.mem_singleton] at hj'
              rw [hj']
              exact tryValidateItem_bounds _ cs ce item2 hval
        | null => simp at h
        | bool b2 => simp at h
        | num q => simp at h
        | str s2 => simp at h
        | arr xs => simp at h

/-- Claim C2 (amended): every item emitted by the timeline validator has
start seconds at least the chunk start and end seconds at most the chunk
end — a start below the chunk start is raised to it and an end beyond the
chunk end is lowered to it (the spec's clamping example comes out as exactly
the chunk bounds) — but the code never compares start against end or start
against the chunk end, so an item may still have `start > end` or
`start > chunk.end` (see the counterexample). -/
theorem parse_and_validate_response_clamps :
    (∀ (response cs ce : String) (ci : Nat) (item : Json),
      item ∈ parse_and_validate_response response cs ce ci →
      optSecLe (time_to_seconds cs) (timelineSortKey item) = true ∧
      optSecLe (itemEndSec item) (time_to_seconds ce) = true) ∧
    parse_and_validate_response c2ClampResp "00:05:00,000" "00:30:00,000" 0 =
      [c2ClampedItem] := by
  constructor
  · intro response cs ce ci item hmem
    unfold parse_and_validate_response at hmem
    cases hp : parse_json_response (.pyStr response) with
    | error e => simp [hp] at hmem
    | ok parsed =>
      simp only [hp] at hmem
      cases hvb : validate_json_structure parsed with
      | false => simp [hvb] at hmem
      | true =>
        simp only [hvb] at hmem
        cases parsed with
        | arr items =>
          cases hloop : validateLoop cs ce ci items [] with
          | none => simp [hloop] at hmem
          | some acc =>
            simp only [hloop] at hmem
            exact validateLoop_bounds cs ce ci items [] acc hloop (by simp) item hmem
        | null => simp at hmem
        | bool b => simp at hmem
        | num q => simp at hmem
        | str s2 => simp at hmem
        | obj fs => simp at hmem
  · rfl

/-- Witness for `parse_and_validate_response_clamps` at the spec's clamping
example. -/
theorem parse_and_validate_response_clamps_witness :
    optSecLe (time_to_seconds "00:05:00,000") (timelineSortKey c2ClampedItem) = true ∧
    optSecLe (itemEndSec c2ClampedItem) (time_to_seconds "00:30:00,000") = true :=
  parse_and_validate_response_clamps.1 c2ClampResp "00:05:00,000" "00:30:00,000" 0 c2ClampedItem
    (by rw [parse_and_validate_response_clamps.2]; exact List.Mem.head _)

/-! ## Claim C9 -/

theorem timelineKeyD_setField_id (j v : Json) :
    timelineKeyD (setField j "id" v) = timelineKeyD j := by
  unfold timelineKeyD timelineSortKey
  cases j with
  | obj fs =>
    simp only [setField_obj, getField_obj]
    rw [lookupAssoc_setAssoc_ne "id" "start_time" (by decide) v fs]
  | null => rfl
  | bool b => rfl
  | num q => rfl
  | str s => rfl
  | arr xs => rfl

theorem mem_insertStable (x : Json) :
    ∀ (l : List Json) (a : Json), a ∈ insertStable x l ↔ a = x ∨ a ∈ l := by
  intro l
  induction l with
  | nil => intro a; simp [insertStable]
  | cons y ys ih =>
    intro a
    simp only [insertStable]
    split
    · simp only [List.mem_cons, ih a]
      try tauto
    · simp only [List.mem_cons]
      try tauto

theorem pairwise_insertStable (x : Json) :
    ∀ l : List Json, l.Pairwise KeyLe → (insertStable x l).Pairwise KeyLe := by
  intro l
  induction l with
  | nil => intro _; simp [insertStable, List.pairwise_singleton]
  | cons y ys ih =>
    intro hp
    rcases List.pairwise_cons.mp hp with ⟨hy, hys⟩
    simp only [insertStable]
    split
    · next hle =>
      refine List.pairwise_cons.mpr ⟨?_, ih hys⟩
      intro b hb
      rcases (mem_insertStable x ys b).mp hb with rfl | hb'
      · exact hle
      · exact hy b hb'
    · next hgt =>
      refine List.pairwise_cons.mpr ⟨?_, hp⟩
      intro b hb
      rcases List.mem_cons.mp hb with rfl | hb'
      · exact le_of_not_le hgt
      · exact le_trans (le_of_not_le hgt) (hy b hb')

theorem sortStableGo_pairwise :
    ∀ (l acc : List Json), acc.Pairwise KeyLe →
      (List.foldl (fun acc x => insertStable x acc) acc l).Pairwise KeyLe := by
  intro l
  induction l with
  | nil => intro acc h; simpa using h
  | cons x xs ih =>
    intro acc h
    simpa [List.foldl_cons] using ih (insertStable x acc) (pairwise_insertStable x acc h)

theorem sortStable_pairwise (l : List Json) : (sortStable l).Pairwise KeyLe :=
  sortStableGo_pairwise l [] (by simp)

theorem mem_sortStableGo :
    ∀ (l acc : List Json) (a : Json),
      a ∈ List.foldl (fun acc x => insertStable x acc) acc l ↔ a ∈ acc ∨ a ∈ l := by
  intro l
  induction l with
  | nil => intro acc a; simp
  | cons x xs ih =>
    intro acc a
    simp only [List.foldl_cons, ih (insertStable x acc) a, mem_insertStable x acc a,
      List.mem_cons]
    tauto

theorem mem_sortStable (l : List Json) (a : Json) : a ∈ sortStable l ↔ a ∈ l := by
  unfold sortStable
  rw [mem_sortStableGo l [] a]
  simp

theorem length_insertStable (x : Json) :
    ∀ l : List Json, (insertStable x l).length = l.length + 1 := by
  intro l
  induction l with
  | nil => rfl
  | cons y ys ih =>
    simp only [insertStable]
    split
    · simp [ih]
    · simp

theorem length_sortStableGo :
    ∀ (l acc : List Json),
      (List.foldl (fun acc x => insertStable x acc) acc l).length = acc.length + l.length := by
  intro l
  induction l with
  | nil => intro acc; simp
  | cons x xs ih =>
    intro acc
    simp [List.foldl_cons, ih (insertStable x acc), length_insertStable]
    omega

theorem length_sortStable (l : List Json) : (sortStable l).length = l.length := by
  unfold sortStable
  rw [length_sortStableGo l []]
  simp

theorem assignIds_key_mem :
    ∀ (l : List Json) (i : Nat) (b : Json), b ∈ assignIds l i →
      ∃ a ∈ l, timelineKeyD b = timelineKeyD a := by
  intro l
  induction l with
  | nil => intro i b hb; simp [assignIds] at hb
  | cons j rest ih =>
    intro i b hb
    simp only [assignIds, List.mem_cons] at hb
    rcases hb with rfl | hb'
    · exact ⟨j, by simp, timelineKeyD_setField_id j _⟩
    · rcases ih (i + 1) b hb' with ⟨a, ha, hk⟩
      exact ⟨a, by simp [ha], hk⟩

theorem assignIds_pairwise :
    ∀ (l : List Json) (i : Nat), l.Pairwise KeyLe → (assignIds l i).Pairwise KeyLe := by
  intro l
  induction l with
  | nil => intro i _; simp [assignIds]
  | cons j rest ih =>
    intro i hp
    rcases List.pairwise_cons.mp hp with ⟨hj, hrest⟩
    refine List.pairwise_cons.mpr ⟨?_, ih (i + 1) hrest⟩
    intro b hb
    rcases assignIds_key_mem rest (i + 1) b hb with ⟨a, ha, hk⟩
    unfold KeyLe
    rw [timelineKeyD_setField_id, hk]
    exact hj a ha

theorem timelineSortKey_isSome_obj (j : Json) (h : (timelineSortKey j).isSome = true) :
    ∃ fs, j = Json.obj fs := by
  cases j with
  | obj fs => exact ⟨fs, rfl⟩
  | null => simp [timelineSortKey, getField] at h
  | bool b => simp [timelineSortKey, getField] at h
  | num q => simp [timelineSortKey, getField] at h
  | str s => simp [timelineSortKey, getField] at h
  | arr xs => simp [timelineSortKey, getField] at h

theorem assignIds_ids :
    ∀ (l : List Json) (i : Nat), (∀ j ∈ l, ∃ fs, j = Json.obj fs) →
      (assignIds l i).map (fun j => getField j "id") =
        (List.range l.length).map (fun k => some (Json.str (toString (i + k + 1)))) := by
  intro l
  induction l with
  | nil => intro i _; simp [assignIds]
  | cons j rest ih =>
    intro i hobj
    rcases hobj j (by simp) with ⟨fs, rfl⟩
    have hrest : ∀ x ∈ rest, ∃ fs2, x = Json.obj fs2 := fun x hx => hobj x (by simp [hx])
    simp only [assignIds, List.map_cons, List.length_cons]
    rw [getField_setField_self, ih (i + 1) hrest, List.range_succ_eq_map]
    simp only [List.map_cons, List.map_map]
    congr 1
    apply List.map_congr_left
    intro a _
    simp only [Function.comp_apply]
    congr 3
    omega

/-- Claim C9 (amended): whenever every loaded item's `start_time` parses (the
code path where `list.sort` does not raise), the assembled timeline is
sorted by start seconds in non-decreasing (not necessarily strict) order,
and the `id` fields are exactly `"1", "2", …, "n"` assigned in final sorted
order with no gaps; two items sharing a start time stay side by side, so
strict ascent holds only when start seconds are pairwise distinct. -/
theorem assemble_timeline_sorted_ids (chunkFiles : List (List Json))
    (h : ∀ j ∈ chunkFiles.flatten, (timelineSortKey j).isSome = true) :
    (assemble_timeline chunkFiles).Pairwise KeyLe ∧
    (assemble_timeline chunkFiles).map (fun j => getField j "id") =
      (List.range chunkFiles.flatten.length).map
        (fun k => some (Json.str (toString (k + 1)))) := by
  unfold assemble_timeline
  by_cases hemp : chunkFiles.flatten.isEmpty
  · rw [if_pos hemp]
    rw [List.isEmpty_iff.mp hemp]
    simp
  · rw [if_neg hemp]
    have hall : chunkFiles.flatten.all (fun j => (timelineSortKey j).isSome) = true := by
      rw [List.all_eq_true]
      exact h
    rw [if_pos hall]
    have hobj : ∀ j ∈ sortStable chunkFiles.flatten, ∃ fs, j = Json.obj fs := by
      intro j hj
      exact timelineSortKey_isSome_obj j (h j ((mem_sortStable _ j).mp hj))
    constructor
    · exact assignIds_pairwise _ 0 (sortStable_pairwise _)
    · rw [assignIds_ids _ 0 hobj, length_sortStable]
      apply List.map_congr_left
      intro k _
      have hk : 0 + k + 1 = k + 1 := by omega
      rw [hk]

/-- Witness for `assemble_timeline_sorted_ids` on a concrete three-item run
(two of them sharing a start time). -/
theorem assemble_timeline_sorted_ids_witness :
    (assemble_timeline [[c9ItemA, c9ItemB], [c9ItemC]]).Pairwise KeyLe ∧
    (assemble_timeline [[c9ItemA, c9ItemB], [c9ItemC]]).map (fun j => getField j "id") =
      (List.range ([[c9ItemA, c9ItemB], [c9ItemC]] : List (List Json)).flatten.length).map
        (fun k => some (Json.str (toString (k + 1)))) :=
  assemble_timeline_sorted_ids [[c9ItemA, c9ItemB], [c9ItemC]] (by decide)

/-- Claim C7: the structured-data extraction round-trips: a fenced
code-block response with a trailing comma parses to the one-object list,
and a JSON array surrounded by explanatory prose parses to the same list. -/
theorem parse_json_response_roundtrips :
    parse_json_response (.pyStr "```json\n[\x7b\"a\":1\x7d,]\n```") =
      .ok (.arr [.obj [("a", .num 1)]]) ∧
    parse_json_response (.pyStr "Sure! Here is the result: [\x7b\"a\":1\x7d] Hope that helps.") =
      .ok (.arr [.obj [("a", .num 1)]]) :=
  ⟨by rfl, by rfl⟩

/-- Claim C10: a `None`, empty-string or non-string response makes
`parse_json_response` return the empty list without raising, and the empty
list passes `_validate_json_structure`. -/
theorem parse_json_response_absent_input :
    parse_json_response .pyNone = .ok (.arr []) ∧
    parse_json_response (.pyStr "") = .ok (.arr []) ∧
    parse_json_response .pyOther = .ok (.arr []) ∧
    validate_json_structure (.arr []) = true :=
  ⟨by rfl, by rfl, by rfl, by rfl⟩

/-- Claim C3, counterexample: with `max_retries = 3` and every attempt
rate-limited, the waits actually slept are `[20, 40]` — the failure on the
final attempt re-raises immediately instead of waiting 60s, so the claimed
schedule `20s, 40s, 60s` is not what the code does. -/
theorem call_with_retry_schedule_counterexample :
    call_with_retry 3 (fun _ => Except.error "HTTP 429 Too Many Requests") =
      (Except.error "HTTP 429 Too Many Requests", [20, 40]) ∧
    ([20, 40] : List Nat) ≠ [20, 40, 60] :=
  ⟨by rfl, by decide⟩

/-- Claim C4, counterexample: `parse_srt` on a missing, zero-size file
returns the empty list normally — it does not fail with any error. -/
theorem parse_srt_missing_counterexample :
    parse_srt missingSrtFile = Except.ok [] := by rfl

/-- Claim C5, counterexample: with `max_chars = 5`, four one-character
entries end up in a single chunk whose space-joined `text` field has length
7 > 5, although no single entry's text reaches 5 characters. -/
theorem chunk_text_budget_counterexample :
    chunk_srt_data c5SrtExample 10 5 = some [c5Chunk] ∧
    5 < c5Chunk.text.length ∧
    c5Chunk.srt_entries.all (fun e => decide (e.text.length < 5)) = true :=
  ⟨by rfl, by decide, by decide⟩

/-- Claim C2, counterexample: an item starting after the chunk end and
ending before its own start is emitted unclamped: start = 2100s exceeds both
its end (600s) and the chunk end (1800s), so the claimed chain
`chunk.start ≤ start ≤ end ≤ chunk.end` fails on an emitted item. -/
theorem parse_and_validate_counterexample :
    parse_and_validate_response c2BadResp "00:05:00,000" "00:30:00,000" 0 = [c2BadItem] ∧
    timelineSortKey c2BadItem = some 2100 ∧
    itemEndSec c2BadItem = some 600 ∧
    time_to_seconds "00:30:00,000" = some 1800 ∧
    optSecLe (timelineSortKey c2BadItem) (itemEndSec c2BadItem) = false ∧
    optSecLe (timelineSortKey c2BadItem) (time_to_seconds "00:30:00,000") = false :=
  ⟨by rfl, by rfl, by rfl, by rfl, by rfl, by rfl⟩

/-- Claim C9, counterexample: two items with equal `start_time` survive the
final sort side by side, so the non-empty returned timeline is not strictly
ascending in start seconds. -/
theorem assemble_timeline_strict_counterexample :
    (assemble_timeline [[c9ItemA, c9ItemB]]).length = 2 ∧
    strictAscBool (assemble_timeline [[c9ItemA, c9ItemB]]) = false :=
  ⟨by rfl, by rfl⟩

/-- Claim C6: the cache-hit path does skip the provider call, but a run
on an empty metadata directory writes only `chunk_0_attempt_0.txt`, never
the probed location `chunk_0.txt`, so a second run after a crash issues a
provider call again for the already-answered chunk. -/
theorem timeline_cache_never_reused :
    (timelineChunkStep [(llmCachePath 0, FileData.txt "cached")] 0 c6SrtChunk c6Provider).2 = 0 ∧
    (timelineChunkStep [] 0 c6SrtChunk c6Provider).2 = 1 ∧
    lookupFileData (llmCachePath 0) (timelineChunkStep [] 0 c6SrtChunk c6Provider).1 = none ∧
    (lookupFileData (attemptCachePath 0 0)
      (timelineChunkStep [] 0 c6SrtChunk c6Provider).1).isSome = true ∧
    (timelineChunkStep (timelineChunkStep [] 0 c6SrtChunk c6Provider).1
      0 c6SrtChunk c6Provider).2 = 1 :=
  ⟨by rfl, by rfl, by rfl, by rfl, by rfl⟩

end ViralAutoClip
